import Mathlib

/-!
Verification of the segment/compaction metadata engine of the datacoord
package (meta.go, util.go): a shallow embedding of the segment store, the
metric-mutation buffer, the meta operations, the operator pipeline, the
compaction-completion mutation and the channel-checkpoint manager, together
with theorems settling the specification claims.

Go maps from identifiers to records are embedded as association lists;
int64 values are embedded as Int, uint64 timestamps as Nat.  Catalog and
blob-store calls are external effects: each operation takes a Boolean
telling whether its catalog write succeeds, the blob store is an explicit
association list threaded through, and the compaction completer also
returns the list of external events it performed (blob copies, the
AlterSegments call) in order.
-/

namespace Datacoord

/-- Association-list lookup (Go map read returning (v, ok)). -/
def getEntry {α β : Type} [DecidableEq α] : List (α × β) → α → Option β
  | [], _ => none
  | (a, b) :: t, k => if a = k then some b else getEntry t k

/-- Association-list upsert (Go map assignment). -/
def setEntry {α β : Type} [DecidableEq α] : List (α × β) → α → β → List (α × β)
  | [], k, v => [(k, v)]
  | (a, b) :: t, k, v => if a = k then (a, v) :: t else (a, b) :: setEntry t k v

/-- Association-list key removal (Go delete). -/
def eraseEntry {α β : Type} [DecidableEq α] : List (α × β) → α → List (α × β)
  | [], _ => []
  | (a, b) :: t, k => if a = k then t else (a, b) :: eraseEntry t k

/-- Add a delta to an integer-valued counter map; a missing key counts as 0
(Go map increment on a possibly missing key). -/
def addCount {α : Type} [DecidableEq α] : List (α × Int) → α → Int → List (α × Int)
  | [], k, d => [(k, d)]
  | (a, v) :: t, k, d => if a = k then (a, v + d) :: t else (a, v) :: addCount t k d

/-- Counter-map read with default 0. -/
def getCount {α : Type} [DecidableEq α] (l : List (α × Int)) (k : α) : Int :=
  (getEntry l k).getD 0

/-- commonpb.SegmentState. -/
inductive SegmentState where
  | stateNone
  | notExist
  | growing
  | sealed
  | flushing
  | flushed
  | dropped
  | importing
  deriving DecidableEq, Repr

/-- datapb.SegmentLevel (Legacy=0, L0=1, L1=2, L2=3). -/
inductive SegmentLevel where
  | legacy
  | l0
  | l1
  | l2
  deriving DecidableEq, Repr

/-- msgpb.MsgPosition. -/
structure MsgPosition where
  channelName : String
  msgID : List Nat
  timestamp : Nat
  deriving DecidableEq, Repr

/-- datapb.Binlog. -/
structure Binlog where
  entriesNum : Int
  timestampFrom : Nat
  timestampTo : Nat
  logSize : Int
  logID : Int
  deriving DecidableEq, Repr

/-- datapb.FieldBinlog. -/
structure FieldBinlog where
  fieldID : Int
  binlogs : List Binlog
  deriving DecidableEq, Repr

/-- datapb.SegmentInfo together with the in-memory-only fields of the
datacoord SegmentInfo wrapper (currRows, isCompacting). -/
structure SegmentRecord where
  id : Int
  collectionID : Int
  partitionID : Int
  insertChannel : String
  numOfRows : Int
  state : SegmentState
  maxRowNum : Int
  lastExpireTime : Nat
  startPosition : Option MsgPosition
  dmlPosition : Option MsgPosition
  binlogs : List FieldBinlog
  statslogs : List FieldBinlog
  deltalogs : List FieldBinlog
  createdByCompaction : Bool
  compactionFrom : List Int
  droppedAt : Nat
  compacted : Bool
  isImporting : Bool
  level : SegmentLevel
  storageVersion : Int
  currRows : Int
  isCompacting : Bool
  deriving DecidableEq, Repr

/-- isSegmentHealthy (meta.go): state is none of SegmentStateNone, NotExist,
Dropped. -/
def isSegmentHealthy (s : SegmentRecord) : Bool :=
  s.state ≠ SegmentState.stateNone &&
  s.state ≠ SegmentState.notExist &&
  s.state ≠ SegmentState.dropped

/-- isFlushState (meta.go). -/
def isFlushState (state : SegmentState) : Bool :=
  state = SegmentState.flushing || state = SegmentState.flushed

/-- segMetricMutation (meta.go): a local cache of segment metric updates.
The Go nested map level-string to state-string to count is flattened to a
counter map keyed by the (level, state) pair. -/
structure SegMetricMutation where
  stateChange : List ((SegmentLevel × SegmentState) × Int)
  rowCountChange : Int
  rowCountAccChange : Int
  deriving DecidableEq, Repr

def emptySegMetricMutation : SegMetricMutation :=
  { stateChange := [], rowCountChange := 0, rowCountAccChange := 0 }

/-- segMetricMutation.append (meta.go). -/
def SegMetricMutation.append (s : SegMetricMutation)
    (oldState newState : SegmentState) (level : SegmentLevel)
    (rowCountUpdate : Int) : SegMetricMutation :=
  let changed :=
    addCount (addCount s.stateChange (level, oldState) (-1)) (level, newState) 1
  let s1 :=
    if oldState ≠ newState then { s with stateChange := changed } else s
  if isFlushState newState && !isFlushState oldState then
    { s1 with rowCountChange := s1.rowCountChange + rowCountUpdate,
              rowCountAccChange := s1.rowCountAccChange + rowCountUpdate }
  else if newState = SegmentState.dropped && oldState ≠ newState then
    { s1 with rowCountChange := s1.rowCountChange - rowCountUpdate }
  else s1

/-- segMetricMutation.addNewSeg (meta.go). -/
def SegMetricMutation.addNewSeg (s : SegMetricMutation)
    (state : SegmentState) (level : SegmentLevel) (rowCount : Int) :
    SegMetricMutation :=
  { s with stateChange := addCount s.stateChange (level, state) 1,
           rowCountChange := s.rowCountChange + rowCount,
           rowCountAccChange := s.rowCountAccChange + rowCount }

/-- The process-wide metric registry state touched by the meta engine:
DataCoordNumSegments (a gauge keyed by state and level) and
DataCoordNumStoredRowsCounter. -/
structure MetricsState where
  numSegments : List ((SegmentLevel × SegmentState) × Int)
  numStoredRows : Int
  deriving DecidableEq, Repr

/-- segMetricMutation.commit (meta.go): apply every buffered state-change
delta to the segment-count gauge and the accumulated row delta to the
stored-rows counter. -/
def SegMetricMutation.commit (s : SegMetricMutation) (g : MetricsState) :
    MetricsState :=
  { numSegments :=
      s.stateChange.foldl (fun acc kv => addCount acc kv.1 kv.2) g.numSegments,
    numStoredRows := g.numStoredRows + s.rowCountAccChange }

/-- updateSegStateAndPrepareMetrics (meta.go): set the state on the cloned
record and append the corresponding metric change. -/
def updateSegStateAndPrepareMetrics (seg : SegmentRecord)
    (targetState : SegmentState) (mm : SegMetricMutation) :
    SegmentRecord × SegMetricMutation :=
  ({ seg with state := targetState },
   mm.append seg.state targetState seg.level seg.numOfRows)

/-- datapb.CompactionSegment (the per-segment part of a compaction plan
result), keeping the fields read by the datacoord code. -/
structure CompactionSegment where
  segmentID : Int
  numOfRows : Int
  insertLogs : List FieldBinlog
  field2StatslogPaths : List FieldBinlog
  deltalogs : List FieldBinlog
  deriving DecidableEq, Repr

/-- Sum of the logSize fields over a list of field binlogs (one loop of
getCompactedSegmentSize, util.go). -/
def sumBinlogSizes (fbs : List FieldBinlog) : Int :=
  fbs.foldl (fun acc fb => fb.binlogs.foldl (fun a l => a + l.logSize) acc) 0

/-- getCompactedSegmentSize (util.go).  The third loop, written over the
variable named statsLogs in the source, ranges over s.GetDeltalogs(). -/
def getCompactedSegmentSize (s : Option CompactionSegment) : Int :=
  match s with
  | none => 0
  | some s =>
    let insertSize := sumBinlogSizes s.insertLogs
    let deltaSize := sumBinlogSizes s.deltalogs
    let statsSize := sumBinlogSizes s.deltalogs
    insertSize + deltaSize + statsSize

/-- Errors surfaced by the embedded meta operations.  catalogErr stands for
any error returned by a catalog write, segmentNotFound for the
segment-missing errors, blobReadErr for a failed chunk-manager read,
nilCheckpoint for the nil-position parameter error, and emptyPlanOrResult
for the out-of-range index panics on an empty plan source list or an empty
result segment list. -/
inductive MetaErr where
  | segmentNotFound (id : Int)
  | catalogErr
  | blobReadErr
  | nilCheckpoint
  | emptyPlanOrResult
  deriving DecidableEq, Repr

/-- The meta engine state: the segment map, the metric registry it updates,
and the channel-checkpoint map. -/
structure Meta where
  segments : List (Int × SegmentRecord)
  metrics : MetricsState
  channelCPs : List (String × MsgPosition)
  deriving DecidableEq, Repr

/-- meta.AddSegment: persist via Catalog.AddSegment (success given by
catalogOk); on success insert into the store and bump the segment gauge. -/
def AddSegment (m : Meta) (catalogOk : Bool) (segment : SegmentRecord) :
    Option MetaErr × Meta :=
  if !catalogOk then (some MetaErr.catalogErr, m)
  else
    let gauge := addCount m.metrics.numSegments (segment.level, segment.state) 1
    let g := { m.metrics with numSegments := gauge }
    (none, { m with segments := setEntry m.segments segment.id segment,
                    metrics := g })

/-- meta.DropSegment: missing segment returns success; otherwise persist via
Catalog.DropSegment, decrement the gauge and remove from the store. -/
def DropSegment (m : Meta) (catalogOk : Bool) (segmentID : Int) :
    Option MetaErr × Meta :=
  match getEntry m.segments segmentID with
  | none => (none, m)
  | some segment =>
    if !catalogOk then (some MetaErr.catalogErr, m)
    else
      let gauge := addCount m.metrics.numSegments (segment.level, segment.state) (-1)
      let g := { m.metrics with numSegments := gauge }
      (none, { m with segments := eraseEntry m.segments segmentID,
                      metrics := g })

/-- meta.SetState: missing segment succeeds only for a Dropped target;
an unhealthy segment is a no-op; otherwise alter the cloned record in the
catalog, commit the metric mutation and set the state in the store. -/
def SetState (m : Meta) (catalogOk : Bool) (segmentID : Int)
    (targetState : SegmentState) : Option MetaErr × Meta :=
  match getEntry m.segments segmentID with
  | none =>
    if targetState = SegmentState.dropped then (none, m)
    else (some (MetaErr.segmentNotFound segmentID), m)
  | some curSegInfo =>
    if isSegmentHealthy curSegInfo then
      let r := updateSegStateAndPrepareMetrics curSegInfo targetState
                 emptySegMetricMutation
      if !catalogOk then (some MetaErr.catalogErr, m)
      else
        (none, { m with metrics := r.2.commit m.metrics,
                        segments := setEntry m.segments segmentID r.1 })
    else (none, m)

/-- A SegmentOperator (used by meta.UpdateSegment): transform the cloned
record, reporting whether it changed anything. -/
def SegmentOperator : Type := SegmentRecord → SegmentRecord × Bool

/-- The operator loop of meta.UpdateSegment.  The Go statement
updated = updated || operator(cloned) short-circuits: once some operator
has returned true, the remaining operators are not invoked at all. -/
def applySegmentOperators : List SegmentOperator → SegmentRecord → Bool →
    SegmentRecord × Bool
  | [], cloned, updated => (cloned, updated)
  | op :: rest, cloned, updated =>
    if updated then applySegmentOperators rest cloned updated
    else
      let r := op cloned
      applySegmentOperators rest r.1 r.2

/-- meta.UpdateSegment: missing segment is an error; if no operator reports
a change, return without a catalog write; otherwise alter the clone in the
catalog and install it. -/
def UpdateSegment (m : Meta) (catalogOk : Bool) (segmentID : Int)
    (operators : List SegmentOperator) : Option MetaErr × Meta :=
  match getEntry m.segments segmentID with
  | none => (some (MetaErr.segmentNotFound segmentID), m)
  | some info =>
    let r := applySegmentOperators operators info false
    if !r.2 then (none, m)
    else if !catalogOk then (some MetaErr.catalogErr, m)
    else (none, { m with segments := setEntry m.segments segmentID r.1 })

/-- meta.UnsetIsImporting: missing segment is an error; the catalog write is
performed only when the (cloned) segment is healthy, but the in-memory flag
is cleared in either case.  The extra Bool reports whether the catalog
write was attempted. -/
def UnsetIsImporting (m : Meta) (catalogOk : Bool) (segmentID : Int) :
    Option MetaErr × Meta × Bool :=
  match getEntry m.segments segmentID with
  | none => (some (MetaErr.segmentNotFound segmentID), m, false)
  | some curSegInfo =>
    let clonedSegment := { curSegInfo with isImporting := false }
    let installed :=
      { m with segments := setEntry m.segments segmentID clonedSegment }
    if isSegmentHealthy clonedSegment then
      if !catalogOk then (some MetaErr.catalogErr, m, true)
      else (none, installed, true)
    else (none, installed, false)

/-- updateSegmentPack (meta.go): the shared mutation pack of the operator
pipeline.  metaSegments is the (read-only) view of the owning meta's
segment map; segments caches the clones dirtied so far; increments records
the segment ids carrying a binlog-increment annotation. -/
structure UpdateSegmentPack where
  metaSegments : List (Int × SegmentRecord)
  segments : List (Int × SegmentRecord)
  increments : List Int
  metricMutation : SegMetricMutation

/-- updateSegmentPack.Get: return the cached clone if present; otherwise
clone the healthy stored segment into the cache (a missing or unhealthy
segment yields none). -/
def UpdateSegmentPack.get (p : UpdateSegmentPack) (segmentID : Int) :
    UpdateSegmentPack × Option SegmentRecord :=
  match getEntry p.segments segmentID with
  | some segment => (p, some segment)
  | none =>
    match getEntry p.metaSegments segmentID with
    | none => (p, none)
    | some segment =>
      if isSegmentHealthy segment then
        ({ p with segments := setEntry p.segments segmentID segment },
         some segment)
      else (p, none)

/-- UpdateOperator (meta.go): a transform of the pack returning a proceed
flag; false abandons the whole UpdateSegmentsInfo transaction. -/
def UpdateOperator : Type := UpdateSegmentPack → UpdateSegmentPack × Bool

/-- The operator loop of meta.UpdateSegmentsInfo: run operators in order,
stopping at the first one that returns false. -/
def runUpdateOperators : List UpdateOperator → UpdateSegmentPack →
    Option UpdateSegmentPack
  | [], p => some p
  | op :: rest, p =>
    let r := op p
    if r.2 then runUpdateOperators rest r.1 else none

/-- meta.UpdateSegmentsInfo: if any operator returns false, return nil with
no write; otherwise alter all dirtied clones in one catalog call, commit
the metric mutation and install the clones. -/
def initialPack (m : Meta) : UpdateSegmentPack :=
  { metaSegments := m.segments, segments := [], increments := [],
    metricMutation := emptySegMetricMutation }

def UpdateSegmentsInfo (m : Meta) (catalogOk : Bool)
    (operators : List UpdateOperator) : Option MetaErr × Meta :=
  match runUpdateOperators operators (initialPack m) with
  | none => (none, m)
  | some pack =>
    if !catalogOk then (some MetaErr.catalogErr, m)
    else
      let installed :=
        pack.segments.foldl (fun acc kv => setEntry acc kv.1 kv.2) m.segments
      (none, { m with metrics := pack.metricMutation.commit m.metrics,
                      segments := installed })

/-- datapb.CheckPoint, as consumed by UpdateCheckPointOperator.  The source
dereferences cp.Position without a nil check, so the position is embedded
as a plain field. -/
structure CheckPoint where
  segmentID : Int
  position : MsgPosition
  numOfRows : Int
  deriving DecidableEq, Repr

/-- Modelled from the spec: segmentutil.CalcRowCountFromBinLog is not part
of the source; the spec says the row count is recomputed from the binlog
entries as a cross-check.  Embedded as the sum of the entry counts of the
first field's insert binlogs (every field holds the same rows). -/
def calcRowCountFromBinLog (s : SegmentRecord) : Int :=
  match s.binlogs with
  | [] => 0
  | fb :: _ => fb.binlogs.foldl (fun acc l => acc + l.entriesNum) 0

/-- The per-checkpoint step of UpdateCheckPointOperator (meta.go): skip a
checkpoint for another segment; skip a stale checkpoint (current dml
position present with timestamp at least the reported one); otherwise set
numOfRows and dmlPosition from the checkpoint. -/
def applyCheckpoint (segmentID : Int) (seg : SegmentRecord)
    (cp : CheckPoint) : SegmentRecord :=
  if cp.segmentID ≠ segmentID then seg
  else
    match seg.dmlPosition with
    | some dml =>
      if dml.timestamp ≥ cp.position.timestamp then seg
      else { seg with numOfRows := cp.numOfRows, dmlPosition := some cp.position }
    | none =>
      { seg with numOfRows := cp.numOfRows, dmlPosition := some cp.position }

/-- UpdateCheckPointOperator (meta.go): for an importing segment copy
currRows into numOfRows; otherwise fold the checkpoints; finally replace
numOfRows by the recomputed binlog row count when that count is positive
and differs from currRows. -/
def UpdateCheckPointOperator (segmentID : Int) (importing : Bool)
    (checkpoints : List CheckPoint) : UpdateOperator :=
  fun modPack =>
    let r := modPack.get segmentID
    match r.2 with
    | none => (r.1, false)
    | some seg0 =>
      let seg1 :=
        if importing then { seg0 with numOfRows := seg0.currRows }
        else checkpoints.foldl (applyCheckpoint segmentID) seg0
      let count := calcRowCountFromBinLog seg1
      let seg2 :=
        if count ≠ seg1.currRows && count > 0 then
          { seg1 with numOfRows := count }
        else seg1
      ({ r.1 with segments := setEntry r.1.segments segmentID seg2 }, true)

/-- UpdateCompactedOperator (meta.go). -/
def UpdateCompactedOperator (segmentID : Int) : UpdateOperator :=
  fun modPack =>
    let r := modPack.get segmentID
    match r.2 with
    | none => (r.1, false)
    | some seg =>
      ({ r.1 with segments :=
           setEntry r.1.segments segmentID { seg with compacted := true } },
       true)

/-- meta.UpdateChannelCheckpoint: reject a nil position or nil message id;
persist then install when no checkpoint exists or the new timestamp is
strictly larger; otherwise succeed without change. -/
def UpdateChannelCheckpoint (m : Meta) (catalogOk : Bool) (vChannel : String)
    (pos : Option MsgPosition) : Option MetaErr × Meta :=
  match pos with
  | none => (some MetaErr.nilCheckpoint, m)
  | some p =>
    if p.msgID = [] then (some MetaErr.nilCheckpoint, m) else
    let save : Option MetaErr × Meta :=
      if !catalogOk then (some MetaErr.catalogErr, m)
      else (none, { m with channelCPs := setEntry m.channelCPs vChannel p })
    match getEntry m.channelCPs vChannel with
    | none => save
    | some oldPosition =>
      if oldPosition.timestamp < p.timestamp then save else (none, m)

/-- meta.GetChannelCheckpoint. -/
def GetChannelCheckpoint (m : Meta) (vChannel : String) : Option MsgPosition :=
  getEntry m.channelCPs vChannel

/-- datapb.CompactionSegmentBinlogs, keeping the fields read by
CompleteCompactionMutation: the source segment id and the delta logs
captured when the plan was cut. -/
structure CompactionSegmentBinlogs where
  segmentID : Int
  deltalogs : List FieldBinlog
  deriving DecidableEq, Repr

/-- datapb.CompactionPlan, with the fields read by the completer. -/
structure CompactionPlan where
  planID : Int
  segmentBinlogs : List CompactionSegmentBinlogs
  startTime : Nat
  channel : String
  deriving DecidableEq, Repr

/-- datapb.CompactionPlanResult. -/
structure CompactionPlanResult where
  segments : List CompactionSegment
  deriving DecidableEq, Repr

/-- metautil.BuildDeltaLogPath: the blob key
root/delta_log/collectionID/partitionID/segmentID/logID, kept as a record
of its components. -/
structure DeltaLogPath where
  root : String
  collectionID : Int
  partitionID : Int
  segmentID : Int
  logID : Int
  deriving DecidableEq, Repr

/-- The blob store visible through the chunk manager: a map from delta-log
paths to opaque blob contents.  A read fails exactly when the key is
absent. -/
abbrev BlobStore : Type := List (DeltaLogPath × Nat)

/-- The external effects of CompleteCompactionMutation, in program order:
one blob copy per late delta log, then the single AlterSegments call. -/
inductive MetaEvent where
  | copyDeltalog (fromKey toKey : DeltaLogPath)
  | alterSegments
  deriving DecidableEq, Repr

/-- The source-collection loop of CompleteCompactionMutation: fetch each
plan source (failing on a missing one), clone it with droppedAt and
compacted set, mark the clone Dropped and accumulate the metric change. -/
def collectCompactFrom (segments : List (Int × SegmentRecord)) (now : Nat) :
    List CompactionSegmentBinlogs → List SegmentRecord → SegMetricMutation →
    Except Int (List SegmentRecord × SegMetricMutation)
  | [], acc, mm => Except.ok (acc, mm)
  | sb :: rest, acc, mm =>
    match getEntry segments sb.segmentID with
    | none => Except.error sb.segmentID
    | some segment =>
      let cloned := { segment with droppedAt := now, compacted := true }
      let r := updateSegStateAndPrepareMetrics cloned SegmentState.dropped mm
      collectCompactFrom segments now rest (acc ++ [r.1]) r.2

/-- The set of delta log-ids captured by the plan (logIDsFromPlan in the
source), as a list with membership tests. -/
def planLogIDs (plan : CompactionPlan) : List Int :=
  plan.segmentBinlogs.flatMap fun sb =>
    sb.deltalogs.flatMap fun fb => fb.binlogs.map fun l => l.logID

/-- The iteration order of copyNewDeltalogs: sources in plan order, each
source's delta field binlogs in order, each field's binlogs in order,
paired with the source record they belong to. -/
def deltalogPairs (sources : List SegmentRecord) :
    List (SegmentRecord × Binlog) :=
  sources.flatMap fun seg =>
    seg.deltalogs.flatMap fun fb => fb.binlogs.map fun l => (seg, l)

/-- The loop body of meta.copyNewDeltalogs: skip a log whose id is in the
plan set; otherwise read the blob at the source delta-log path and write it
at the target delta-log path (a failed read aborts, keeping the blobs
already copied), accumulating the copied logs and the copy events. -/
def copyNewDeltalogsLoop (root : String) (logIDsInPlan : List Int)
    (toSegment : Int) :
    List (SegmentRecord × Binlog) → BlobStore → List MetaEvent →
    List Binlog → Bool × BlobStore × List MetaEvent × List Binlog
  | [], chunk, trace, acc => (true, chunk, trace, acc)
  | (seg, l) :: rest, chunk, trace, acc =>
    if l.logID ∈ logIDsInPlan then
      copyNewDeltalogsLoop root logIDsInPlan toSegment rest chunk trace acc
    else
      let fromKey : DeltaLogPath :=
        ⟨root, seg.collectionID, seg.partitionID, seg.id, l.logID⟩
      let toKey : DeltaLogPath :=
        ⟨root, seg.collectionID, seg.partitionID, toSegment, l.logID⟩
      match getEntry chunk fromKey with
      | none => (false, chunk, trace, acc)
      | some blob =>
        copyNewDeltalogsLoop root logIDsInPlan toSegment rest
          (setEntry chunk toKey blob)
          (trace ++ [MetaEvent.copyDeltalog fromKey toKey]) (acc ++ [l])

/-- The loop body of getMinPosition (meta.go): a nil running value is
replaced by the next position whether or not that one is nil; a non-nil
one only by a non-nil position with a strictly smaller timestamp. -/
def minPosStep (minPos pos : Option MsgPosition) : Option MsgPosition :=
  match minPos, pos with
  | none, _ => pos
  | some _, none => minPos
  | some mp, some p => if p.timestamp < mp.timestamp then pos else minPos

/-- getMinPosition (meta.go). -/
def getMinPosition (positions : List (Option MsgPosition)) :
    Option MsgPosition :=
  positions.foldl minPosStep none

/-- Everything CompleteCompactionMutation computes before its catalog
write. -/
structure CCMPrep where
  err : Option MetaErr
  blobs : BlobStore
  trace : List MetaEvent
  compactFrom : List SegmentRecord
  mutation : SegMetricMutation
  compactTo : SegmentRecord
  deriving Repr

/-- A placeholder record for the error cases of the preparation step (the
Go code has returned before constructing the target there). -/
def emptySegmentRecord : SegmentRecord :=
  { id := 0, collectionID := 0, partitionID := 0, insertChannel := "",
    numOfRows := 0, state := SegmentState.stateNone, maxRowNum := 0,
    lastExpireTime := 0, startPosition := none, dmlPosition := none,
    binlogs := [], statslogs := [], deltalogs := [],
    createdByCompaction := false, compactionFrom := [], droppedAt := 0,
    compacted := false, isImporting := false, level := SegmentLevel.legacy,
    storageVersion := 0, currRows := 0, isCompacting := false }

/-- The straight-line prefix of meta.CompleteCompactionMutation up to (and
not including) the Catalog.AlterSegments call: validate and clone the
sources, build the plan's delta log-id set, copy the late delta logs,
attach them to the result segment and construct the target record with its
zero-row policy. -/
def ccmPrepare (m : Meta) (blobs : BlobStore) (root : String) (now : Nat)
    (plan : CompactionPlan) (result : CompactionPlanResult) : CCMPrep :=
  match collectCompactFrom m.segments now plan.segmentBinlogs []
      emptySegMetricMutation with
  | Except.error missing =>
    { err := some (MetaErr.segmentNotFound missing), blobs := blobs,
      trace := [], compactFrom := [], mutation := emptySegMetricMutation,
      compactTo := emptySegmentRecord }
  | Except.ok (latest, mm) =>
    match result.segments, latest with
    | [], _ =>
      { err := some MetaErr.emptyPlanOrResult, blobs := blobs, trace := [],
        compactFrom := latest, mutation := mm,
        compactTo := emptySegmentRecord }
    | _, [] =>
      { err := some MetaErr.emptyPlanOrResult, blobs := blobs, trace := [],
        compactFrom := latest, mutation := mm,
        compactTo := emptySegmentRecord }
    | cts :: _, first :: _ =>
      let r := copyNewDeltalogsLoop root (planLogIDs plan) cts.segmentID
                 (deltalogPairs latest) blobs [] []
      match r with
      | (false, chunk, trace, _) =>
        { err := some MetaErr.blobReadErr, blobs := chunk, trace := trace,
          compactFrom := latest, mutation := mm,
          compactTo := emptySegmentRecord }
      | (true, chunk, trace, newDeltalogs) =>
        let targetDeltalogs :=
          if newDeltalogs ≠ [] then
            cts.deltalogs ++ [{ fieldID := 0, binlogs := newDeltalogs }]
          else cts.deltalogs
        let startPos :=
          getMinPosition (latest.map fun info => info.startPosition)
        let dmlPos :=
          getMinPosition (latest.map fun info => info.dmlPosition)
        let target0 : SegmentRecord :=
          { id := cts.segmentID, collectionID := first.collectionID,
            partitionID := first.partitionID, insertChannel := plan.channel,
            numOfRows := cts.numOfRows, state := SegmentState.flushed,
            maxRowNum := first.maxRowNum, lastExpireTime := plan.startTime,
            startPosition := startPos, dmlPosition := dmlPos,
            binlogs := cts.insertLogs, statslogs := cts.field2StatslogPaths,
            deltalogs := targetDeltalogs, createdByCompaction := true,
            compactionFrom := plan.segmentBinlogs.map (fun sb => sb.segmentID),
            droppedAt := 0, compacted := false, isImporting := false,
            level := SegmentLevel.l1, storageVersion := 0, currRows := 0,
            isCompacting := false }
        if target0.numOfRows > 0 then
          { err := none, blobs := chunk, trace := trace, compactFrom := latest,
            mutation := mm.addNewSeg target0.state target0.level target0.numOfRows,
            compactTo := target0 }
        else
          { err := none, blobs := chunk, trace := trace, compactFrom := latest,
            mutation := mm,
            compactTo := { target0 with state := SegmentState.dropped } }

/-- The result of CompleteCompactionMutation: the error (if any), the meta
and blob-store states after the call, the event trace, and on success the
installed target record and the metric mutation handed back to the caller
(the caller commits it; the function itself never touches the registry). -/
structure CCMResult where
  err : Option MetaErr
  meta : Meta
  blobs : BlobStore
  trace : List MetaEvent
  compactTo : Option SegmentRecord
  mutation : Option SegMetricMutation
  deriving Repr

/-- meta.CompleteCompactionMutation: run the preparation prefix; then issue
the single Catalog.AlterSegments call covering the dropped sources and the
target, and on its success install the source clones and the target. -/
def CompleteCompactionMutation (m : Meta) (blobs : BlobStore) (root : String)
    (catalogOk : Bool) (now : Nat) (plan : CompactionPlan)
    (result : CompactionPlanResult) : CCMResult :=
  let prep := ccmPrepare m blobs root now plan result
  match prep.err with
  | some e =>
    { err := some e, meta := m, blobs := prep.blobs, trace := prep.trace,
      compactTo := none, mutation := none }
  | none =>
    let trace := prep.trace ++ [MetaEvent.alterSegments]
    if !catalogOk then
      { err := some MetaErr.catalogErr, meta := m, blobs := prep.blobs,
        trace := trace, compactTo := none, mutation := none }
    else
      let withSources :=
        prep.compactFrom.foldl (fun acc info => setEntry acc info.id info)
          m.segments
      let installed := setEntry withSources prep.compactTo.id prep.compactTo
      { err := none, meta := { m with segments := installed },
        blobs := prep.blobs, trace := trace,
        compactTo := some prep.compactTo, mutation := some prep.mutation }

/-! Specification-side definitions, written from the spec's words and used
only to state properties of the compaction completer. -/

/-- The clone of a source segment as step 2 of the completer describes it:
droppedAt stamped, compacted set, state Dropped. -/
def dropClone (now : Nat) (s : SegmentRecord) : SegmentRecord :=
  { s with droppedAt := now, compacted := true,
           state := SegmentState.dropped }

/-- The records currently stored for the plan's sources, in plan order;
none when some source is missing. -/
def planSourcesSpec (segments : List (Int × SegmentRecord)) :
    List CompactionSegmentBinlogs → Option (List SegmentRecord)
  | [] => some []
  | sb :: rest =>
    match getEntry segments sb.segmentID, planSourcesSpec segments rest with
    | some s, some t => some (s :: t)
    | _, _ => none

/-- The delta-log blob key of a (source segment, binlog) pair at the
source's own address. -/
def sourceDeltaKey (root : String) (p : SegmentRecord × Binlog) :
    DeltaLogPath :=
  ⟨root, p.1.collectionID, p.1.partitionID, p.1.id, p.2.logID⟩

/-- The delta-log blob key of a (source segment, binlog) pair readdressed
to the compaction target. -/
def targetDeltaKey (root : String) (toSegment : Int)
    (p : SegmentRecord × Binlog) : DeltaLogPath :=
  ⟨root, p.1.collectionID, p.1.partitionID, toSegment, p.2.logID⟩

/-- The late deltas of the spec: every delta log of every source whose
log id is not in the plan's captured set, in source order. -/
def lateDeltas (srcs : List SegmentRecord) (ids : List Int) :
    List (SegmentRecord × Binlog) :=
  (deltalogPairs srcs).filter fun p => !(decide (p.2.logID ∈ ids))

/-- Every (source, late binlog) pair has its source-side blob present, so
all chunk-manager reads of the carry-over step succeed. -/
def readsOk (blobs : BlobStore) (root : String)
    (pairs : List (SegmentRecord × Binlog)) : Bool :=
  pairs.all fun p => (getEntry blobs (sourceDeltaKey root p)).isSome

/-- The metric mutation produced by marking the sources Dropped (step 2 of
the completer), with no target contribution. -/
def dropsMutation (srcs : List SegmentRecord) : SegMetricMutation :=
  srcs.foldl
    (fun mm s => mm.append s.state SegmentState.dropped s.level s.numOfRows)
    emptySegMetricMutation

/-- r is a timestamp-minimum of the list of optional positions: none only
when all entries are none, otherwise an element of the list whose
timestamp is at most every present entry's timestamp. -/
def isMinPositionOf (r : Option MsgPosition)
    (ps : List (Option MsgPosition)) : Prop :=
  match r with
  | none => ∀ p ∈ ps, p = none
  | some x =>
    some x ∈ ps ∧ ∀ p ∈ ps, ∀ q, p = some q → x.timestamp ≤ q.timestamp

/-- The target record of step 4 of the completer, spelled out: fields from
the result segment, the plan and the first source, the minimum positions
of the sources, and the late-delta carry-over attached after the result's
own delta logs. -/
def ccmTarget (plan : CompactionPlan) (cts : CompactionSegment)
    (first : SegmentRecord) (stail : List SegmentRecord) : SegmentRecord :=
  { id := cts.segmentID,
    collectionID := first.collectionID,
    partitionID := first.partitionID,
    insertChannel := plan.channel,
    numOfRows := cts.numOfRows,
    state := SegmentState.flushed,
    maxRowNum := first.maxRowNum,
    lastExpireTime := plan.startTime,
    startPosition := getMinPosition ((first :: stail).map fun s => s.startPosition),
    dmlPosition := getMinPosition ((first :: stail).map fun s => s.dmlPosition),
    binlogs := cts.insertLogs,
    statslogs := cts.field2StatslogPaths,
    deltalogs :=
      (if (lateDeltas (first :: stail) (planLogIDs plan)).map Prod.snd ≠ [] then
        cts.deltalogs ++
          [{ fieldID := 0,
             binlogs := (lateDeltas (first :: stail) (planLogIDs plan)).map Prod.snd }]
      else cts.deltalogs),
    createdByCompaction := true,
    compactionFrom := plan.segmentBinlogs.map fun sb => sb.segmentID,
    droppedAt := 0,
    compacted := false,
    isImporting := false,
    level := SegmentLevel.l1,
    storageVersion := 0,
    currRows := 0,
    isCompacting := false }

/-- A sequence of UpdateChannelCheckpoint calls: each update carries the
success of its catalog write, the channel and the position argument. -/
def runCheckpointUpdates (m : Meta)
    (updates : List (Bool × String × Option MsgPosition)) : Meta :=
  updates.foldl (fun acc u => (UpdateChannelCheckpoint acc u.1 u.2.1 u.2.2).2) m

/-! Concrete fixtures used by the witness theorems. -/

def witnessPos : MsgPosition :=
  { channelName := "ch1", msgID := [1, 2, 3], timestamp := 1000 }

def witnessSeg : SegmentRecord :=
  { emptySegmentRecord with
    id := 1, collectionID := 100, partitionID := 10,
    state := SegmentState.flushed, level := SegmentLevel.l1, numOfRows := 2,
    currRows := 2 }

def witnessDroppedSeg : SegmentRecord :=
  { emptySegmentRecord with
    id := 4, collectionID := 100, partitionID := 10,
    state := SegmentState.dropped, isImporting := true }

def witnessMeta : Meta :=
  { segments := [(1, witnessSeg), (4, witnessDroppedSeg)],
    metrics := { numSegments := [], numStoredRows := 0 },
    channelCPs := [("ch1", witnessPos)] }

def witnessBinlog (logID : Int) : Binlog :=
  { entriesNum := 1, timestampFrom := 0, timestampTo := 0, logSize := 1,
    logID := logID }

def witnessFieldBinlog (ids : List Int) : FieldBinlog :=
  { fieldID := 0, binlogs := ids.map witnessBinlog }

def witnessSrc1 : SegmentRecord :=
  { witnessSeg with
    id := 1, binlogs := [witnessFieldBinlog [10000, 10001]],
    statslogs := [witnessFieldBinlog [20000]],
    deltalogs := [witnessFieldBinlog [30000], witnessFieldBinlog [30001]] }

def witnessSrc2 : SegmentRecord :=
  { witnessSeg with
    id := 2, binlogs := [witnessFieldBinlog [11000]],
    statslogs := [witnessFieldBinlog [21000]],
    deltalogs := [witnessFieldBinlog [31000], witnessFieldBinlog [31001]] }

def witnessCompactionMeta : Meta :=
  { segments := [(1, witnessSrc1), (2, witnessSrc2)],
    metrics := { numSegments := [], numStoredRows := 0 }, channelCPs := [] }

def witnessPlan : CompactionPlan :=
  { planID := 19530, channel := "ch1", startTime := 123,
    segmentBinlogs :=
      [{ segmentID := 1, deltalogs := [witnessFieldBinlog [30000]] },
       { segmentID := 2, deltalogs := [witnessFieldBinlog [31000]] }] }

def witnessCompactTo : CompactionSegment :=
  { segmentID := 3, numOfRows := 2,
    insertLogs := [witnessFieldBinlog [50000]],
    field2StatslogPaths := [witnessFieldBinlog [50001]], deltalogs := [] }

def witnessResult : CompactionPlanResult :=
  { segments := [witnessCompactTo] }

def witnessBlobs : BlobStore :=
  [(⟨"root", 100, 10, 1, 30001⟩, 7), (⟨"root", 100, 10, 2, 31001⟩, 8)]

/-! Association-list lemmas. -/

theorem getEntry_setEntry {α β : Type} [DecidableEq α]
    (l : List (α × β)) (k k2 : α) (v : β) :
    getEntry (setEntry l k v) k2 = if k = k2 then some v else getEntry l k2 := by
  induction l with
  | nil =>
    by_cases h : k = k2 <;> simp [setEntry, getEntry, h]
  | cons hd t ih =>
    obtain ⟨a, b⟩ := hd
    by_cases hak : a = k
    · subst hak
      by_cases hk2 : a = k2 <;> simp [setEntry, getEntry, hk2]
    · by_cases hk2 : a = k2
      · subst hk2
        have hne : ¬ k = a := fun h => hak h.symm
        simp [setEntry, getEntry, hak, hne]
      · simp [setEntry, getEntry, hak, hk2, ih]

theorem getCount_addCount {α : Type} [DecidableEq α]
    (l : List (α × Int)) (k k2 : α) (d : Int) :
    getCount (addCount l k d) k2 =
      getCount l k2 + (if k = k2 then d else 0) := by
  induction l with
  | nil =>
    by_cases h : k = k2 <;> simp [addCount, getCount, getEntry, h]
  | cons hd t ih =>
    obtain ⟨a, v⟩ := hd
    by_cases hak : a = k
    · subst hak
      by_cases hk2 : a = k2 <;>
        simp [addCount, getCount, getEntry, hk2]
    · by_cases hk2 : a = k2
      · subst hk2
        have hne : ¬ k = a := fun h => hak h.symm
        simp [addCount, getCount, getEntry, hak, hne]
      · simpa [addCount, getCount, getEntry, hak, hk2] using ih

/-! Claim C9: compacted segment size accounting. -/

/-- C9: for every non-nil CompactionSegment, getCompactedSegmentSize returns
the insert-log sizes plus twice the delta-log sizes — the statistics-log
loop ranges over the delta logs — and the actual stats logs never
contribute. -/
theorem getCompactedSegmentSize_doubles_deltalogs (s : CompactionSegment) :
    getCompactedSegmentSize (some s) =
      sumBinlogSizes s.insertLogs + 2 * sumBinlogSizes s.deltalogs ∧
    ∀ other : List FieldBinlog,
      getCompactedSegmentSize (some { s with field2StatslogPaths := other }) =
        getCompactedSegmentSize (some s) := by
  constructor
  · simp [getCompactedSegmentSize]; ring
  · intro other
    simp [getCompactedSegmentSize]

/-! Claim C7: the metric-mutation append rules. -/

/-- C7: append decrements the (level, oldState) counter and increments the
(level, newState) counter exactly when the state changed; adds rowDelta to
both row counters exactly on a fresh transition into Flushing/Flushed;
subtracts rowDelta from the row-count delta only, on a fresh transition
into Dropped; and otherwise leaves the row counters unchanged. -/
theorem segMetricMutation_append_rules (s : SegMetricMutation)
    (oldState newState : SegmentState) (level : SegmentLevel) (rowDelta : Int) :
    (oldState ≠ newState →
      getCount (s.append oldState newState level rowDelta).stateChange
          (level, oldState) =
        getCount s.stateChange (level, oldState) - 1 ∧
      getCount (s.append oldState newState level rowDelta).stateChange
          (level, newState) =
        getCount s.stateChange (level, newState) + 1) ∧
    (isFlushState newState = true → isFlushState oldState = false →
      (s.append oldState newState level rowDelta).rowCountChange =
        s.rowCountChange + rowDelta ∧
      (s.append oldState newState level rowDelta).rowCountAccChange =
        s.rowCountAccChange + rowDelta) ∧
    (newState = SegmentState.dropped → oldState ≠ SegmentState.dropped →
      (s.append oldState newState level rowDelta).rowCountChange =
        s.rowCountChange - rowDelta ∧
      (s.append oldState newState level rowDelta).rowCountAccChange =
        s.rowCountAccChange) ∧
    (¬(isFlushState newState = true ∧ isFlushState oldState = false) →
     ¬(newState = SegmentState.dropped ∧ oldState ≠ SegmentState.dropped) →
      (s.append oldState newState level rowDelta).rowCountChange =
        s.rowCountChange ∧
      (s.append oldState newState level rowDelta).rowCountAccChange =
        s.rowCountAccChange) := by
  cases oldState <;> cases newState <;>
    simp_all [SegMetricMutation.append, isFlushState, getCount_addCount,
      Prod.ext_iff] <;>
    ring

/-- Witness for C7 at a Sealed-to-Flushed transition. -/
theorem segMetricMutation_append_rules_witness :
    SegmentState.sealed ≠ SegmentState.flushed ∧
    (getCount ((emptySegMetricMutation.append SegmentState.sealed
          SegmentState.flushed SegmentLevel.l1 5).stateChange)
        (SegmentLevel.l1, SegmentState.sealed) =
      getCount emptySegMetricMutation.stateChange
        (SegmentLevel.l1, SegmentState.sealed) - 1 ∧
     getCount ((emptySegMetricMutation.append SegmentState.sealed
          SegmentState.flushed SegmentLevel.l1 5).stateChange)
        (SegmentLevel.l1, SegmentState.flushed) =
      getCount emptySegMetricMutation.stateChange
        (SegmentLevel.l1, SegmentState.flushed) + 1) :=
  ⟨by decide,
   (segMetricMutation_append_rules emptySegMetricMutation SegmentState.sealed
      SegmentState.flushed SegmentLevel.l1 5).1 (by decide)⟩

/-! Claim C10: UnsetIsImporting on an unhealthy segment. -/

/-- C10: for a stored but unhealthy segment, UnsetIsImporting skips the
catalog write (the attempted-write flag is false, whatever the catalog
would do), still clears the in-memory isImporting flag, and succeeds. -/
theorem unsetIsImporting_unhealthy_skips_catalog (m : Meta)
    (catalogOk : Bool) (id : Int) (seg : SegmentRecord)
    (hfound : getEntry m.segments id = some seg)
    (hunhealthy : isSegmentHealthy seg = false) :
    UnsetIsImporting m catalogOk id =
      (none,
       { m with segments :=
           setEntry m.segments id { seg with isImporting := false } },
       false) := by
  have hch : isSegmentHealthy { seg with isImporting := false } = false := by
    simpa [isSegmentHealthy] using hunhealthy
  simp [UnsetIsImporting, hfound, hch]

/-- Witness for C10 at a Dropped importing segment. -/
theorem unsetIsImporting_unhealthy_witness :
    getEntry witnessMeta.segments 4 = some witnessDroppedSeg ∧
    isSegmentHealthy witnessDroppedSeg = false ∧
    UnsetIsImporting witnessMeta false 4 =
      (none,
       { witnessMeta with
         segments := setEntry witnessMeta.segments 4 { witnessDroppedSeg with isImporting := false } },
       false) :=
  ⟨by decide, by decide,
   unsetIsImporting_unhealthy_skips_catalog witnessMeta false 4
     witnessDroppedSeg (by decide) (by decide)⟩

/-! Claim C5: idempotent drops. -/

theorem dropSegment_noError (m : Meta) (id : Int) :
    (DropSegment m true id).1 = none := by
  unfold DropSegment
  cases getEntry m.segments id <;> simp

theorem setState_dropped_noError (m : Meta) (id : Int) :
    (SetState m true id SegmentState.dropped).1 = none := by
  unfold SetState
  cases getEntry m.segments id with
  | none => simp
  | some seg =>
    by_cases h : isSegmentHealthy seg <;> simp [h]

/-- C5: DropSegment on a missing id succeeds with no change; SetState to
Dropped on a missing id succeeds; SetState on a missing id with any other
target errors; and both DropSegment and SetState-to-Dropped succeed when
invoked twice in a row. -/
theorem dropSegment_setState_idempotent (m : Meta) (id : Int)
    (target : SegmentState) :
    (getEntry m.segments id = none → DropSegment m true id = (none, m)) ∧
    (getEntry m.segments id = none →
      SetState m true id SegmentState.dropped = (none, m)) ∧
    (getEntry m.segments id = none → target ≠ SegmentState.dropped →
      (SetState m true id target).1 = some (MetaErr.segmentNotFound id)) ∧
    ((DropSegment m true id).1 = none ∧
      (DropSegment (DropSegment m true id).2 true id).1 = none) ∧
    ((SetState m true id SegmentState.dropped).1 = none ∧
      (SetState (SetState m true id SegmentState.dropped).2 true id
          SegmentState.dropped).1 = none) := by
  refine ⟨?_, ?_, ?_, ⟨?_, ?_⟩, ⟨?_, ?_⟩⟩
  · intro h
    simp [DropSegment, h]
  · intro h
    simp [SetState, h]
  · intro h hne
    simp [SetState, h, hne]
  · exact dropSegment_noError m id
  · exact dropSegment_noError _ id
  · exact setState_dropped_noError m id
  · exact setState_dropped_noError _ id

/-- Witness for C5 at a missing segment id. -/
theorem dropSegment_setState_idempotent_witness :
    getEntry witnessMeta.segments 99 = none ∧
    SegmentState.flushed ≠ SegmentState.dropped ∧
    DropSegment witnessMeta true 99 = (none, witnessMeta) ∧
    (SetState witnessMeta true 99 SegmentState.flushed).1 =
      some (MetaErr.segmentNotFound 99) := by
  have h := dropSegment_setState_idempotent witnessMeta 99 SegmentState.flushed
  exact ⟨by decide, by decide, h.1 (by decide), h.2.2.1 (by decide) (by decide)⟩

/-! Claim C4: channel-checkpoint advancement. -/

theorem checkpoint_step_mono (m : Meta) (b : Bool) (ch ch2 : String)
    (q : Option MsgPosition) (old : MsgPosition)
    (h : getEntry m.channelCPs ch = some old) :
    ∃ n, getEntry ((UpdateChannelCheckpoint m b ch2 q).2).channelCPs ch =
        some n ∧ old.timestamp ≤ n.timestamp := by
  unfold UpdateChannelCheckpoint
  cases q with
  | none => exact ⟨old, h, le_refl _⟩
  | some p =>
    by_cases hmsg : p.msgID = []
    · simp only [hmsg, if_pos rfl]
      exact ⟨old, h, le_refl _⟩
    · simp only [if_neg hmsg]
      cases hx : getEntry m.channelCPs ch2 with
      | none =>
        cases b with
        | false =>
          simp only [Bool.not_false, if_pos rfl]
          exact ⟨old, h, le_refl _⟩
        | true =>
          have hne : ¬ ch2 = ch := by
            intro hEq
            rw [hEq, h] at hx
            cases hx
          rw [if_neg (by decide)]
          refine ⟨old, ?_, le_refl _⟩
          rw [getEntry_setEntry, if_neg hne]
          exact h
      | some oldq =>
        by_cases hlt : oldq.timestamp < p.timestamp
        · simp only [if_pos hlt]
          cases b with
          | false =>
            simp only [Bool.not_false, if_pos rfl]
            exact ⟨old, h, le_refl _⟩
          | true =>
            rw [if_neg (by decide)]
            by_cases hcheq : ch2 = ch
            · subst hcheq
              rw [hx] at h
              injection h with h2
              subst h2
              refine ⟨p, ?_, le_of_lt hlt⟩
              rw [getEntry_setEntry, if_pos rfl]
            · refine ⟨old, ?_, le_refl _⟩
              rw [getEntry_setEntry, if_neg hcheq]
              exact h
        · simp only [if_neg hlt]
          exact ⟨old, h, le_refl _⟩

/-- C4: a valid position is persisted and installed exactly when no
checkpoint exists or its timestamp strictly exceeds the current one; a
stale position succeeds with no change at all (whatever the catalog would
do); and the checkpoint timestamp of a channel never decreases across any
sequence of further updates. -/
theorem updateChannelCheckpoint_monotone (m : Meta) (ch : String)
    (p : MsgPosition) (hmsg : p.msgID ≠ []) :
    (getEntry m.channelCPs ch = none →
      UpdateChannelCheckpoint m true ch (some p) =
        (none, { m with channelCPs := setEntry m.channelCPs ch p })) ∧
    (∀ old, getEntry m.channelCPs ch = some old →
      old.timestamp < p.timestamp →
      UpdateChannelCheckpoint m true ch (some p) =
        (none, { m with channelCPs := setEntry m.channelCPs ch p })) ∧
    (∀ (catalogOk : Bool) old, getEntry m.channelCPs ch = some old →
      p.timestamp ≤ old.timestamp →
      UpdateChannelCheckpoint m catalogOk ch (some p) = (none, m)) ∧
    (∀ updates old, GetChannelCheckpoint m ch = some old →
      ∃ n, GetChannelCheckpoint (runCheckpointUpdates m updates) ch =
          some n ∧ old.timestamp ≤ n.timestamp) := by
  refine ⟨?_, ?_, ?_, ?_⟩
  · intro h
    simp [UpdateChannelCheckpoint, hmsg, h]
  · intro old h hlt
    simp [UpdateChannelCheckpoint, hmsg, h, hlt]
  · intro catalogOk old h hle
    have hnlt : ¬ old.timestamp < p.timestamp := not_lt.mpr hle
    simp [UpdateChannelCheckpoint, hmsg, h, hnlt]
  · intro updates
    induction updates generalizing m with
    | nil =>
      intro old h
      exact ⟨old, h, le_refl _⟩
    | cons u us ih =>
      intro old h
      obtain ⟨n1, h1, hle1⟩ :=
        checkpoint_step_mono m u.1 ch u.2.1 u.2.2 old h
      obtain ⟨n2, h2, hle2⟩ :=
        ih (UpdateChannelCheckpoint m u.1 u.2.1 u.2.2).2 n1 h1
      exact ⟨n2, h2, le_trans hle1 hle2⟩

/-- Witness for C4: a fresh channel accepts its first checkpoint. -/
theorem updateChannelCheckpoint_monotone_witness :
    witnessPos.msgID ≠ [] ∧
    getEntry witnessCompactionMeta.channelCPs "ch9" = none ∧
    UpdateChannelCheckpoint witnessCompactionMeta true "ch9"
        (some witnessPos) =
      (none,
       { witnessCompactionMeta with
         channelCPs := setEntry witnessCompactionMeta.channelCPs "ch9" witnessPos }) :=
  ⟨by decide,
   by decide,
   (updateChannelCheckpoint_monotone witnessCompactionMeta "ch9" witnessPos
      (by decide)).1 (by decide)⟩

/-! Claim C6: the operator pipeline of UpdateSegmentsInfo. -/

theorem runUpdateOperators_append (xs ys : List UpdateOperator)
    (p : UpdateSegmentPack) :
    runUpdateOperators (xs ++ ys) p =
      match runUpdateOperators xs p with
      | none => none
      | some q => runUpdateOperators ys q := by
  induction xs generalizing p with
  | nil => simp [runUpdateOperators]
  | cons op t ih =>
    simp only [List.cons_append, runUpdateOperators]
    by_cases hb : (op p).2 <;> simp [hb, ih]

theorem getEntry_foldl_setEntry_notmem {α β : Type} [DecidableEq α]
    (ps : List (α × β)) (base : List (α × β)) (id : α)
    (h : id ∉ ps.map Prod.fst) :
    getEntry (ps.foldl (fun acc kv => setEntry acc kv.1 kv.2) base) id =
      getEntry base id := by
  induction ps generalizing base with
  | nil => rfl
  | cons kv t ih =>
    simp only [List.map_cons, List.mem_cons, not_or] at h
    rw [List.foldl_cons, ih (setEntry base kv.1 kv.2) h.2,
      getEntry_setEntry, if_neg (fun hk => h.1 hk.symm)]

theorem getEntry_foldl_setEntry_mem {α β : Type} [DecidableEq α]
    (ps : List (α × β)) (base : List (α × β)) (id : α) (s : β)
    (hnd : (ps.map Prod.fst).Nodup) (hmem : (id, s) ∈ ps) :
    getEntry (ps.foldl (fun acc kv => setEntry acc kv.1 kv.2) base) id =
      some s := by
  induction ps generalizing base with
  | nil => cases hmem
  | cons kv t ih =>
    simp only [List.map_cons, List.nodup_cons] at hnd
    rcases List.mem_cons.mp hmem with heq | hmem2
    · subst heq
      rw [List.foldl_cons,
        getEntry_foldl_setEntry_notmem t (setEntry base id s) id hnd.1,
        getEntry_setEntry, if_pos rfl]
    · exact ih (setEntry base kv.1 kv.2) hnd.2 hmem2

/-- C6: an operator returning false abandons the whole transaction — nil
result, no catalog write, no metric commit, no installation, and the
operators after it are never consulted; when every operator proceeds, the
dirtied clones are all installed and the metric mutation is committed
after the single successful catalog write. -/
theorem updateSegmentsInfo_pipeline (m : Meta) (catalogOk : Bool) :
    (∀ (pre post1 post2 : List UpdateOperator) (failOp : UpdateOperator)
       (p : UpdateSegmentPack),
      runUpdateOperators pre (initialPack m) = some p →
      (failOp p).2 = false →
      UpdateSegmentsInfo m catalogOk (pre ++ failOp :: post1) = (none, m) ∧
      UpdateSegmentsInfo m catalogOk (pre ++ failOp :: post1) =
        UpdateSegmentsInfo m catalogOk (pre ++ failOp :: post2)) ∧
    (∀ (ops : List UpdateOperator) (pack : UpdateSegmentPack),
      runUpdateOperators ops (initialPack m) = some pack →
      UpdateSegmentsInfo m true ops =
        (none,
         { m with metrics := pack.metricMutation.commit m.metrics,
                  segments := pack.segments.foldl
                    (fun acc kv => setEntry acc kv.1 kv.2) m.segments }) ∧
      ∀ id s, (pack.segments.map Prod.fst).Nodup → (id, s) ∈ pack.segments →
        getEntry (UpdateSegmentsInfo m true ops).2.segments id = some s) := by
  constructor
  · intro pre post1 post2 failOp p hpre hfail
    have hrun : ∀ post : List UpdateOperator,
        runUpdateOperators (pre ++ failOp :: post) (initialPack m) = none := by
      intro post
      rw [runUpdateOperators_append, hpre]
      simp [runUpdateOperators, hfail]
    constructor
    · simp [UpdateSegmentsInfo, hrun post1]
    · simp [UpdateSegmentsInfo, hrun post1, hrun post2]
  · intro ops pack hrun
    have h1 : UpdateSegmentsInfo m true ops =
        (none,
         { m with metrics := pack.metricMutation.commit m.metrics,
                  segments := pack.segments.foldl
                    (fun acc kv => setEntry acc kv.1 kv.2) m.segments }) := by
      simp [UpdateSegmentsInfo, hrun]
    refine ⟨h1, ?_⟩
    intro id s hnd hmem
    rw [h1]
    exact getEntry_foldl_setEntry_mem pack.segments m.segments id s hnd hmem

/-- Witness for C6: a constantly failing operator abandons the pipeline. -/
theorem updateSegmentsInfo_pipeline_witness :
    runUpdateOperators [] (initialPack witnessMeta) =
      some (initialPack witnessMeta) ∧
    ((fun p => (p, false)) (initialPack witnessMeta) :
        UpdateSegmentPack × Bool).2 = false ∧
    UpdateSegmentsInfo witnessMeta true
        ([] ++ (fun p => (p, false)) :: []) = (none, witnessMeta) :=
  ⟨rfl, rfl,
   ((updateSegmentsInfo_pipeline witnessMeta true).1 [] [] []
      (fun p => (p, false)) (initialPack witnessMeta) rfl rfl).1⟩

/-! Claim C3: catalog-failure atomicity of the mutating operations. -/

/-- C3: for AddSegment, SetState, UpdateSegment, UpdateSegmentsInfo and
CompleteCompactionMutation, a failed catalog write returns the error and
leaves the segment map and the metric registry exactly as before, while a
successful one installs the mutated records. -/
theorem mutating_ops_catalog_atomicity (m : Meta) :
    (∀ seg, AddSegment m false seg = (some MetaErr.catalogErr, m)) ∧
    (∀ seg, (AddSegment m true seg).1 = none ∧
      getEntry (AddSegment m true seg).2.segments seg.id = some seg) ∧
    (∀ id seg target, getEntry m.segments id = some seg →
      isSegmentHealthy seg = true →
      SetState m false id target = (some MetaErr.catalogErr, m)) ∧
    (∀ id seg target, getEntry m.segments id = some seg →
      isSegmentHealthy seg = true →
      (SetState m true id target).1 = none ∧
      getEntry (SetState m true id target).2.segments id =
        some { seg with state := target }) ∧
    (∀ id seg ops, getEntry m.segments id = some seg →
      (applySegmentOperators ops seg false).2 = true →
      UpdateSegment m false id ops = (some MetaErr.catalogErr, m)) ∧
    (∀ id seg ops, getEntry m.segments id = some seg →
      (applySegmentOperators ops seg false).2 = true →
      (UpdateSegment m true id ops).1 = none ∧
      getEntry (UpdateSegment m true id ops).2.segments id =
        some (applySegmentOperators ops seg false).1) ∧
    (∀ ops pack, runUpdateOperators ops (initialPack m) = some pack →
      UpdateSegmentsInfo m false ops = (some MetaErr.catalogErr, m)) ∧
    (∀ ops pack id s, runUpdateOperators ops (initialPack m) = some pack →
      (pack.segments.map Prod.fst).Nodup → (id, s) ∈ pack.segments →
      (UpdateSegmentsInfo m true ops).1 = none ∧
      getEntry (UpdateSegmentsInfo m true ops).2.segments id = some s) ∧
    (∀ blobs root now plan result,
      (ccmPrepare m blobs root now plan result).err = none →
      (CompleteCompactionMutation m blobs root false now plan result).err =
        some MetaErr.catalogErr ∧
      (CompleteCompactionMutation m blobs root false now plan result).meta =
        m) ∧
    (∀ blobs root now plan result,
      (ccmPrepare m blobs root now plan result).err = none →
      (CompleteCompactionMutation m blobs root true now plan result).err =
        none ∧
      getEntry
          (CompleteCompactionMutation m blobs root true now plan
            result).meta.segments
          (ccmPrepare m blobs root now plan result).compactTo.id =
        some (ccmPrepare m blobs root now plan result).compactTo) := by
  refine ⟨?_, ?_, ?_, ?_, ?_, ?_, ?_, ?_, ?_, ?_⟩
  · intro seg
    simp [AddSegment]
  · intro seg
    refine ⟨by simp [AddSegment], ?_⟩
    simp [AddSegment, getEntry_setEntry]
  · intro id seg target hfound hhealthy
    simp [SetState, hfound, hhealthy]
  · intro id seg target hfound hhealthy
    refine ⟨by simp [SetState, hfound, hhealthy], ?_⟩
    simp [SetState, hfound, hhealthy, updateSegStateAndPrepareMetrics,
      getEntry_setEntry]
  · intro id seg ops hfound hupd
    simp [UpdateSegment, hfound, hupd]
  · intro id seg ops hfound hupd
    refine ⟨by simp [UpdateSegment, hfound, hupd], ?_⟩
    simp [UpdateSegment, hfound, hupd, getEntry_setEntry]
  · intro ops pack hrun
    simp [UpdateSegmentsInfo, hrun]
  · intro ops pack id s hrun hnd hmem
    have h1 : UpdateSegmentsInfo m true ops =
        (none,
         { m with metrics := pack.metricMutation.commit m.metrics,
                  segments := pack.segments.foldl
                    (fun acc kv => setEntry acc kv.1 kv.2) m.segments }) := by
      simp [UpdateSegmentsInfo, hrun]
    rw [h1]
    exact ⟨rfl, getEntry_foldl_setEntry_mem pack.segments m.segments id s hnd hmem⟩
  · intro blobs root now plan result herr
    simp [CompleteCompactionMutation, herr]
  · intro blobs root now plan result herr
    refine ⟨by simp [CompleteCompactionMutation, herr], ?_⟩
    simp [CompleteCompactionMutation, herr, getEntry_setEntry]

/-- Witness for C3: a catalog failure during SetState leaves witnessMeta
untouched. -/
theorem mutating_ops_catalog_atomicity_witness :
    getEntry witnessMeta.segments 1 = some witnessSeg ∧
    isSegmentHealthy witnessSeg = true ∧
    SetState witnessMeta false 1 SegmentState.dropped =
      (some MetaErr.catalogErr, witnessMeta) :=
  ⟨by decide, by decide,
   (mutating_ops_catalog_atomicity witnessMeta).2.2.1 1 witnessSeg
     SegmentState.dropped (by decide) (by decide)⟩

/-! Claim C8: the UpdateCheckPoint operator. -/

theorem calcRowCount_set_numOfRows (s : SegmentRecord) (x : Int) :
    calcRowCountFromBinLog { s with numOfRows := x } =
      calcRowCountFromBinLog s := rfl

theorem calcRowCount_set_checkpoint (s : SegmentRecord) (x : Int)
    (d : Option MsgPosition) :
    calcRowCountFromBinLog { s with numOfRows := x, dmlPosition := d } =
      calcRowCountFromBinLog s := rfl

theorem applyCheckpoint_stale_fold (id : Int) (seg : SegmentRecord)
    (cps : List CheckPoint)
    (h : ∀ cp ∈ cps, cp.segmentID = id →
      ∃ dml, seg.dmlPosition = some dml ∧
        cp.position.timestamp ≤ dml.timestamp) :
    cps.foldl (applyCheckpoint id) seg = seg := by
  induction cps with
  | nil => rfl
  | cons cp t ih =>
    have hstep : applyCheckpoint id seg cp = seg := by
      unfold applyCheckpoint
      by_cases hid : cp.segmentID = id
      · obtain ⟨dml, hdml, hle⟩ := h cp (List.mem_cons_self cp t) hid
        simp [hid, hdml, hle]
      · simp [hid]
    rw [List.foldl_cons, hstep]
    exact ih fun cp2 hcp2 => h cp2 (List.mem_cons_of_mem _ hcp2)

/-- C8: for a found (healthy) segment, the importing flavour copies the
in-memory currRows into numOfRows and never reads the checkpoints; the
non-importing flavour ignores every matching stale checkpoint (reported
timestamp at most the current dml position's) and applies a fresh one to
numOfRows and dmlPosition; in either case the row count recomputed from
the binlog entries overrides numOfRows exactly when it is positive and
differs from currRows. -/
theorem updateCheckPointOperator_rules (pack : UpdateSegmentPack) (id : Int)
    (seg : SegmentRecord) (cps : List CheckPoint) (cp : CheckPoint)
    (hfound : (pack.get id).2 = some seg) :
    (UpdateCheckPointOperator id true cps pack =
      ({ (pack.get id).1 with
         segments := setEntry (pack.get id).1.segments id
           (if calcRowCountFromBinLog seg ≠ seg.currRows &&
               calcRowCountFromBinLog seg > 0 then
              { seg with numOfRows := calcRowCountFromBinLog seg }
            else { seg with numOfRows := seg.currRows }) }, true) ∧
     UpdateCheckPointOperator id true cps pack =
       UpdateCheckPointOperator id true [] pack) ∧
    ((∀ c ∈ cps, c.segmentID = id →
        ∃ dml, seg.dmlPosition = some dml ∧
          c.position.timestamp ≤ dml.timestamp) →
      UpdateCheckPointOperator id false cps pack =
        ({ (pack.get id).1 with
           segments := setEntry (pack.get id).1.segments id
             (if calcRowCountFromBinLog seg ≠ seg.currRows &&
                 calcRowCountFromBinLog seg > 0 then
                { seg with numOfRows := calcRowCountFromBinLog seg }
              else seg) }, true)) ∧
    (cp.segmentID = id →
      (seg.dmlPosition = none ∨
        ∃ dml, seg.dmlPosition = some dml ∧
          dml.timestamp < cp.position.timestamp) →
      UpdateCheckPointOperator id false [cp] pack =
        ({ (pack.get id).1 with
           segments := setEntry (pack.get id).1.segments id
             (if calcRowCountFromBinLog seg ≠ seg.currRows &&
                 calcRowCountFromBinLog seg > 0 then
                { seg with numOfRows := calcRowCountFromBinLog seg,
                           dmlPosition := some cp.position }
              else { seg with numOfRows := cp.numOfRows,
                              dmlPosition := some cp.position }) }, true)) := by
  refine ⟨⟨?_, ?_⟩, ?_, ?_⟩
  · simp only [UpdateCheckPointOperator, hfound]
    by_cases hc : calcRowCountFromBinLog seg ≠ seg.currRows &&
        calcRowCountFromBinLog seg > 0 <;>
      simp [calcRowCount_set_numOfRows, hc]
  · simp [UpdateCheckPointOperator, hfound]
  · intro hstale
    simp only [UpdateCheckPointOperator, hfound, Bool.false_eq_true,
      if_false, applyCheckpoint_stale_fold id seg cps hstale]
  · intro hid hfresh
    have hstep : applyCheckpoint id seg cp =
        { seg with numOfRows := cp.numOfRows,
                   dmlPosition := some cp.position } := by
      unfold applyCheckpoint
      rcases hfresh with hnone | ⟨dml, hdml, hlt⟩
      · simp [hid, hnone]
      · simp [hid, hdml, not_le.mpr hlt]
    simp only [UpdateCheckPointOperator, hfound, Bool.false_eq_true,
      if_false, List.foldl_cons, List.foldl_nil, hstep]
    by_cases hc : calcRowCountFromBinLog seg ≠ seg.currRows &&
        calcRowCountFromBinLog seg > 0 <;>
      simp [calcRowCount_set_checkpoint, hc]

/-- Witness for C8: an importing segment takes its currRows. -/
theorem updateCheckPointOperator_rules_witness :
    ((initialPack witnessMeta).get 1).2 = some witnessSeg ∧
    UpdateCheckPointOperator 1 true [] (initialPack witnessMeta) =
      ({ (initialPack witnessMeta).get 1 |>.1 with
         segments := setEntry ((initialPack witnessMeta).get 1).1.segments 1
           (if calcRowCountFromBinLog witnessSeg ≠ witnessSeg.currRows &&
               calcRowCountFromBinLog witnessSeg > 0 then
              { witnessSeg with
                numOfRows := calcRowCountFromBinLog witnessSeg }
            else { witnessSeg with numOfRows := witnessSeg.currRows }) },
       true) :=
  ⟨by decide,
   ((updateCheckPointOperator_rules (initialPack witnessMeta) 1 witnessSeg []
       { segmentID := 1, position := witnessPos, numOfRows := 0 }
       (by decide)).1).1⟩

/-! Lemmas about the compaction completer. -/

theorem collectCompactFrom_spec (segments : List (Int × SegmentRecord))
    (now : Nat) (sbs : List CompactionSegmentBinlogs) :
    ∀ (srcs acc : List SegmentRecord) (mm : SegMetricMutation),
      planSourcesSpec segments sbs = some srcs →
      collectCompactFrom segments now sbs acc mm =
        Except.ok (acc ++ srcs.map (dropClone now),
          srcs.foldl
            (fun a s => a.append s.state SegmentState.dropped s.level s.numOfRows)
            mm) := by
  induction sbs with
  | nil =>
    intro srcs acc mm h
    simp only [planSourcesSpec, Option.some_inj] at h
    subst h
    simp [collectCompactFrom]
  | cons sb rest ih =>
    intro srcs acc mm h
    unfold planSourcesSpec at h
    cases hseg : getEntry segments sb.segmentID with
    | none => rw [hseg] at h; simp at h
    | some s0 =>
      rw [hseg] at h
      cases hrest : planSourcesSpec segments rest with
      | none => rw [hrest] at h; simp at h
      | some t =>
        rw [hrest] at h
        simp only [Option.some_inj] at h
        subst h
        unfold collectCompactFrom
        rw [hseg]
        simp only [updateSegStateAndPrepareMetrics]
        have hIH := ih t (acc ++ [dropClone now s0])
          (mm.append s0.state SegmentState.dropped s0.level s0.numOfRows) hrest
        simp only [dropClone] at hIH
        rw [hIH]
        simp [dropClone]

theorem deltalogPairs_map_dropClone (now : Nat) (srcs : List SegmentRecord) :
    deltalogPairs (srcs.map (dropClone now)) =
      (deltalogPairs srcs).map (fun p => (dropClone now p.1, p.2)) := by
  induction srcs with
  | nil => rfl
  | cons s t ih =>
    simp only [List.map_cons, deltalogPairs, List.flatMap_cons] at *
    rw [List.map_append, ih]
    congr 1
    rw [List.map_flatMap]
    simp [List.map_map, Function.comp_def, dropClone]

theorem lateDeltas_map_dropClone (now : Nat) (srcs : List SegmentRecord)
    (ids : List Int) :
    lateDeltas (srcs.map (dropClone now)) ids =
      (lateDeltas srcs ids).map (fun p => (dropClone now p.1, p.2)) := by
  unfold lateDeltas
  rw [deltalogPairs_map_dropClone, List.filter_map]
  rfl

theorem getEntry_isSome_setEntry {α β : Type} [DecidableEq α]
    (l : List (α × β)) (k k2 : α) (v : β)
    (h : (getEntry l k).isSome = true) :
    (getEntry (setEntry l k2 v) k).isSome = true := by
  rw [getEntry_setEntry]
  by_cases hk : k2 = k <;> simp [hk, h]

theorem copyNewDeltalogsLoop_spec (root : String) (ids : List Int)
    (toSegment : Int) (pairs : List (SegmentRecord × Binlog)) :
    ∀ (blobs : BlobStore) (trace : List MetaEvent) (acc : List Binlog),
      (∀ p ∈ pairs, p.2.logID ∉ ids →
        (getEntry blobs (sourceDeltaKey root p)).isSome = true) →
      ∃ chunk,
        copyNewDeltalogsLoop root ids toSegment pairs blobs trace acc =
          (true, chunk,
           trace ++ (pairs.filter fun p => !(decide (p.2.logID ∈ ids))).map
             (fun p => MetaEvent.copyDeltalog (sourceDeltaKey root p)
               (targetDeltaKey root toSegment p)),
           acc ++ (pairs.filter fun p => !(decide (p.2.logID ∈ ids))).map
             Prod.snd) := by
  induction pairs with
  | nil =>
    intro blobs trace acc _
    exact ⟨blobs, by simp [copyNewDeltalogsLoop]⟩
  | cons p rest ih =>
    intro blobs trace acc hreads
    obtain ⟨seg, l⟩ := p
    by_cases hmem : l.logID ∈ ids
    · have hrest : ∀ q ∈ rest, q.2.logID ∉ ids →
          (getEntry blobs (sourceDeltaKey root q)).isSome = true :=
        fun q hq => hreads q (List.mem_cons_of_mem _ hq)
      obtain ⟨chunk, hloop⟩ := ih blobs trace acc hrest
      refine ⟨chunk, ?_⟩
      simp only [copyNewDeltalogsLoop, if_pos hmem, hloop, List.filter_cons]
      simp [hmem]
    · have hhead : (getEntry blobs (sourceDeltaKey root (seg, l))).isSome =
          true := hreads (seg, l) (List.mem_cons_self _ _) hmem
      obtain ⟨blob, hblob⟩ := Option.isSome_iff_exists.mp hhead
      have hrest : ∀ q ∈ rest, q.2.logID ∉ ids →
          (getEntry
            (setEntry blobs (targetDeltaKey root toSegment (seg, l)) blob)
            (sourceDeltaKey root q)).isSome = true := by
        intro q hq hnq
        exact getEntry_isSome_setEntry _ _ _ _
          (hreads q (List.mem_cons_of_mem _ hq) hnq)
      obtain ⟨chunk, hloop⟩ := ih
        (setEntry blobs (targetDeltaKey root toSegment (seg, l)) blob)
        (trace ++ [MetaEvent.copyDeltalog (sourceDeltaKey root (seg, l))
          (targetDeltaKey root toSegment (seg, l))])
        (acc ++ [l]) hrest
      refine ⟨chunk, ?_⟩
      simp only [copyNewDeltalogsLoop, if_neg hmem]
      simp only [sourceDeltaKey, targetDeltaKey] at hblob hloop
      simp only [hblob, hloop]
      simp [hmem, List.filter_cons, sourceDeltaKey, targetDeltaKey]

theorem lateTrace_dropClone (root : String) (now : Nat) (toSeg : Int)
    (srcs : List SegmentRecord) (ids : List Int) :
    (lateDeltas (srcs.map (dropClone now)) ids).map
        (fun p => MetaEvent.copyDeltalog (sourceDeltaKey root p)
          (targetDeltaKey root toSeg p)) =
      (lateDeltas srcs ids).map
        (fun p => MetaEvent.copyDeltalog (sourceDeltaKey root p)
          (targetDeltaKey root toSeg p)) := by
  rw [lateDeltas_map_dropClone]
  simp [List.map_map, Function.comp_def, sourceDeltaKey, targetDeltaKey,
    dropClone]

theorem lateBin_dropClone (now : Nat) (srcs : List SegmentRecord)
    (ids : List Int) :
    (lateDeltas (srcs.map (dropClone now)) ids).map Prod.snd =
      (lateDeltas srcs ids).map Prod.snd := by
  rw [lateDeltas_map_dropClone]
  simp [List.map_map, Function.comp_def]

theorem startPosition_map_dropClone (now : Nat) (srcs : List SegmentRecord) :
    (srcs.map (dropClone now)).map (fun s => s.startPosition) =
      srcs.map fun s => s.startPosition := by
  simp [List.map_map, Function.comp_def, dropClone]

theorem dmlPosition_map_dropClone (now : Nat) (srcs : List SegmentRecord) :
    (srcs.map (dropClone now)).map (fun s => s.dmlPosition) =
      srcs.map fun s => s.dmlPosition := by
  simp [List.map_map, Function.comp_def, dropClone]

/-- The outcome of the preparation prefix of CompleteCompactionMutation
under the hypotheses of a normal run: all plan sources stored, a result
segment present, and every late delta readable.  The final blob store is
existentially quantified (the copies land there); everything else is
computed: cloned-and-dropped sources, the late-delta copy trace, the
target record and the metric mutation with its zero-row policy. -/
theorem ccmPrepare_spec (m : Meta) (blobs : BlobStore) (root : String)
    (now : Nat) (plan : CompactionPlan) (result : CompactionPlanResult)
    (first : SegmentRecord) (stail : List SegmentRecord)
    (cts : CompactionSegment) (crest : List CompactionSegment)
    (hsrc : planSourcesSpec m.segments plan.segmentBinlogs =
      some (first :: stail))
    (hres : result.segments = cts :: crest)
    (hreads : readsOk blobs root
      (lateDeltas (first :: stail) (planLogIDs plan)) = true) :
    ∃ chunk : BlobStore,
      ccmPrepare m blobs root now plan result =
        (if cts.numOfRows > 0 then
          ({ err := none,
             blobs := chunk,
             trace := (lateDeltas (first :: stail) (planLogIDs plan)).map
               (fun p => MetaEvent.copyDeltalog (sourceDeltaKey root p)
                 (targetDeltaKey root cts.segmentID p)),
             compactFrom := (first :: stail).map (dropClone now),
             mutation := (dropsMutation (first :: stail)).addNewSeg
               SegmentState.flushed SegmentLevel.l1 cts.numOfRows,
             compactTo := ccmTarget plan cts first stail } : CCMPrep)
        else
          { err := none,
            blobs := chunk,
            trace := (lateDeltas (first :: stail) (planLogIDs plan)).map
              (fun p => MetaEvent.copyDeltalog (sourceDeltaKey root p)
                (targetDeltaKey root cts.segmentID p)),
            compactFrom := (first :: stail).map (dropClone now),
            mutation := dropsMutation (first :: stail),
            compactTo := { ccmTarget plan cts first stail with
                           state := SegmentState.dropped } }) := by
  have hreads2 : ∀ p ∈ deltalogPairs ((first :: stail).map (dropClone now)),
      p.2.logID ∉ planLogIDs plan →
      (getEntry blobs (sourceDeltaKey root p)).isSome = true := by
    intro p hp hnp
    have hplate : p ∈ lateDeltas ((first :: stail).map (dropClone now))
        (planLogIDs plan) := by
      unfold lateDeltas
      exact List.mem_filter.mpr ⟨hp, by simpa using hnp⟩
    rw [lateDeltas_map_dropClone] at hplate
    obtain ⟨q, hq, hpq⟩ := List.mem_map.mp hplate
    have hq2 := (List.all_eq_true.mp hreads) q hq
    rw [← hpq]
    simpa [sourceDeltaKey, dropClone] using hq2
  obtain ⟨chunk, hloop⟩ := copyNewDeltalogsLoop_spec root (planLogIDs plan)
    cts.segmentID (deltalogPairs ((first :: stail).map (dropClone now)))
    blobs [] [] hreads2
  have hcollect := collectCompactFrom_spec m.segments now plan.segmentBinlogs
    (first :: stail) [] emptySegMetricMutation hsrc
  refine ⟨chunk, ?_⟩
  unfold ccmPrepare
  rw [hcollect]
  simp only [List.nil_append, hres, List.map_cons]
  simp only [List.map_cons] at hloop
  rw [hloop]
  simp only [List.nil_append]
  have hlate : List.filter (fun p => !decide (p.2.logID ∈ planLogIDs plan))
      (deltalogPairs (dropClone now first :: List.map (dropClone now) stail)) =
      (lateDeltas (first :: stail) (planLogIDs plan)).map
        (fun p => (dropClone now p.1, p.2)) := by
    rw [← List.map_cons (dropClone now) first stail]
    exact lateDeltas_map_dropClone now (first :: stail) (planLogIDs plan)
  rw [hlate]
  simp only [ccmTarget, dropsMutation, lateDeltas]
  split_ifs <;>
    simp_all [List.map_map, Function.comp_def, dropClone, sourceDeltaKey,
      targetDeltaKey]

theorem minPosStep_cases (acc p : Option MsgPosition) :
    (minPosStep acc p = acc ∨ minPosStep acc p = p) ∧
    (minPosStep acc p = none → acc = none ∧ p = none) ∧
    (∀ x, minPosStep acc p = some x →
      (∀ a, acc = some a → x.timestamp ≤ a.timestamp) ∧
      (∀ q, p = some q → x.timestamp ≤ q.timestamp)) := by
  cases acc with
  | none =>
    cases p with
    | none => simp [minPosStep]
    | some q => simp [minPosStep]
  | some a =>
    cases p with
    | none => simp [minPosStep]
    | some q =>
      by_cases hlt : q.timestamp < a.timestamp
      · refine ⟨Or.inr (by simp [minPosStep, hlt]), ?_, ?_⟩
        · simp [minPosStep, hlt]
        · intro x hx
          simp [minPosStep, hlt] at hx
          subst hx
          exact ⟨fun b hb => by cases hb; exact le_of_lt hlt,
            fun b hb => by cases hb; exact le_refl _⟩
      · refine ⟨Or.inl (by simp [minPosStep, hlt]), ?_, ?_⟩
        · simp [minPosStep, hlt]
        · intro x hx
          simp [minPosStep, hlt] at hx
          subst hx
          exact ⟨fun b hb => by cases hb; exact le_refl _,
            fun b hb => by cases hb; exact le_of_not_lt hlt⟩

theorem foldl_minPosStep_spec (ps : List (Option MsgPosition)) :
    ∀ acc : Option MsgPosition,
      (ps.foldl minPosStep acc = acc ∨ ps.foldl minPosStep acc ∈ ps) ∧
      (ps.foldl minPosStep acc = none → acc = none ∧ ∀ p ∈ ps, p = none) ∧
      (∀ x, ps.foldl minPosStep acc = some x →
        (∀ a, acc = some a → x.timestamp ≤ a.timestamp) ∧
        ∀ p ∈ ps, ∀ q, p = some q → x.timestamp ≤ q.timestamp) := by
  induction ps with
  | nil =>
    intro acc
    refine ⟨Or.inl rfl, fun h => ⟨h, by simp⟩, ?_⟩
    intro x h
    refine ⟨?_, by simp⟩
    intro a ha
    rw [List.foldl_nil] at h
    rw [ha] at h
    cases h
    exact le_refl _
  | cons p t ih =>
    intro acc
    obtain ⟨ihmem, ihnone, ihsome⟩ := ih (minPosStep acc p)
    obtain ⟨smem, snone, ssome⟩ := minPosStep_cases acc p
    rw [List.foldl_cons]
    refine ⟨?_, ?_, ?_⟩
    · rcases ihmem with h1 | h1
      · rw [h1]
        rcases smem with h2 | h2
        · exact Or.inl h2
        · rw [h2]
          exact Or.inr (List.mem_cons_self p t)
      · exact Or.inr (List.mem_cons_of_mem p h1)
    · intro h
      obtain ⟨hstep, hall⟩ := ihnone h
      obtain ⟨hacc, hp⟩ := snone hstep
      refine ⟨hacc, ?_⟩
      intro q hq
      rcases List.mem_cons.mp hq with h1 | h1
      · rw [h1]; exact hp
      · exact hall q h1
    · intro x h
      obtain ⟨hstepbound, htail⟩ := ihsome x h
      constructor
      · intro a ha
        cases hstep : minPosStep acc p with
        | none =>
          obtain ⟨hacc, _⟩ := snone hstep
          rw [hacc] at ha
          cases ha
        | some y =>
          exact le_trans (hstepbound y hstep) ((ssome y hstep).1 a ha)
      · intro r hr q hq
        rcases List.mem_cons.mp hr with h1 | h1
        · have hpq : p = some q := by rw [← h1]; exact hq
          cases hstep : minPosStep acc p with
          | none =>
            obtain ⟨_, hp⟩ := snone hstep
            rw [hp] at hpq
            cases hpq
          | some y =>
            exact le_trans (hstepbound y hstep) ((ssome y hstep).2 q hpq)
        · exact htail r h1 q hq

/-- getMinPosition returns a timestamp-minimum in the sense of
isMinPositionOf. -/
theorem getMinPosition_isMin (ps : List (Option MsgPosition)) :
    isMinPositionOf (getMinPosition ps) ps := by
  obtain ⟨hmem, hnone, hsome⟩ := foldl_minPosStep_spec ps none
  unfold isMinPositionOf getMinPosition
  cases hr : ps.foldl minPosStep none with
  | none =>
    exact (hnone hr).2
  | some x =>
    refine ⟨?_, ?_⟩
    · rcases hmem with h1 | h1
      · rw [hr] at h1; cases h1
      · rw [hr] at h1; exact h1
    · intro p hp q hq
      exact (hsome x hr).2 p hp q hq

/-! Claim C1: late-delta carry-over. -/

/-- C1: in a completion whose plan sources are all present, every late
delta log (log id outside the plan's captured set) is copied from its
source delta-log path to the target's delta-log path, all copies preceding
the AlterSegments call; exactly the late deltas are appended to the
target's deltalogs as one extra FieldBinlog after the result's own; and a
log whose id is in the plan set is never copied nor appended. -/
theorem ccm_late_delta_carryover (m : Meta) (blobs : BlobStore)
    (root : String) (now : Nat) (plan : CompactionPlan)
    (result : CompactionPlanResult) (first : SegmentRecord)
    (stail : List SegmentRecord) (cts : CompactionSegment)
    (crest : List CompactionSegment)
    (hsrc : planSourcesSpec m.segments plan.segmentBinlogs =
      some (first :: stail))
    (hres : result.segments = cts :: crest)
    (hreads : readsOk blobs root
      (lateDeltas (first :: stail) (planLogIDs plan)) = true) :
    (CompleteCompactionMutation m blobs root true now plan result).err =
      none ∧
    (CompleteCompactionMutation m blobs root true now plan result).trace =
      (lateDeltas (first :: stail) (planLogIDs plan)).map
        (fun p => MetaEvent.copyDeltalog (sourceDeltaKey root p)
          (targetDeltaKey root cts.segmentID p)) ++
        [MetaEvent.alterSegments] ∧
    (∃ t, (CompleteCompactionMutation m blobs root true now plan
        result).compactTo = some t ∧
      t.deltalogs =
        (if (lateDeltas (first :: stail) (planLogIDs plan)).map Prod.snd ≠
            [] then
          cts.deltalogs ++
            [{ fieldID := 0,
               binlogs := (lateDeltas (first :: stail)
                 (planLogIDs plan)).map Prod.snd }]
        else cts.deltalogs)) ∧
    (∀ p ∈ lateDeltas (first :: stail) (planLogIDs plan),
      p.2.logID ∉ planLogIDs plan) ∧
    (∀ p : SegmentRecord × Binlog, p.2.logID ∈ planLogIDs plan →
      MetaEvent.copyDeltalog (sourceDeltaKey root p)
          (targetDeltaKey root cts.segmentID p) ∉
        (CompleteCompactionMutation m blobs root true now plan
          result).trace ∧
      p.2 ∉ (lateDeltas (first :: stail) (planLogIDs plan)).map Prod.snd) := by
  obtain ⟨chunk, hprep⟩ := ccmPrepare_spec m blobs root now plan result first
    stail cts crest hsrc hres hreads
  have hnotin : ∀ p ∈ lateDeltas (first :: stail) (planLogIDs plan),
      p.2.logID ∉ planLogIDs plan := by
    intro p hp
    have h2 := (List.mem_filter.mp hp).2
    simpa using h2
  have hmain :
      (CompleteCompactionMutation m blobs root true now plan result).err =
        none ∧
      (CompleteCompactionMutation m blobs root true now plan result).trace =
        (lateDeltas (first :: stail) (planLogIDs plan)).map
          (fun p => MetaEvent.copyDeltalog (sourceDeltaKey root p)
            (targetDeltaKey root cts.segmentID p)) ++
          [MetaEvent.alterSegments] ∧
      (CompleteCompactionMutation m blobs root true now plan
          result).compactTo =
        some (if cts.numOfRows > 0 then ccmTarget plan cts first stail
          else { ccmTarget plan cts first stail with
                 state := SegmentState.dropped }) := by
    unfold CompleteCompactionMutation
    rw [hprep]
    by_cases hpos : cts.numOfRows > 0 <;> simp [hpos]
  refine ⟨hmain.1, hmain.2.1, ⟨_, hmain.2.2, ?_⟩, hnotin, ?_⟩
  · by_cases hpos : cts.numOfRows > 0 <;> simp [hpos, ccmTarget]
  · intro p hpid
    constructor
    · intro hmem
      rw [hmain.2.1] at hmem
      rcases List.mem_append.mp hmem with hcopy | halter
      · obtain ⟨p2, hp2, hev⟩ := List.mem_map.mp hcopy
        have hkey : p2.2.logID = p.2.logID := by
          have := congrArg (fun e => match e with
            | MetaEvent.copyDeltalog k _ => k.logID
            | MetaEvent.alterSegments => 0) hev
          simpa [sourceDeltaKey] using this
        exact hnotin p2 hp2 (hkey ▸ hpid)
      · simp at halter
    · intro hmem
      obtain ⟨p2, hp2, hsnd⟩ := List.mem_map.mp hmem
      have hkey : p2.2.logID = p.2.logID := by rw [hsnd]
      exact hnotin p2 hp2 (hkey ▸ hpid)

/-- Witness for C1 on the two-source late-delta scenario. -/
theorem ccm_late_delta_carryover_witness :
    planSourcesSpec witnessCompactionMeta.segments
        witnessPlan.segmentBinlogs = some (witnessSrc1 :: [witnessSrc2]) ∧
    witnessResult.segments = witnessCompactTo :: [] ∧
    readsOk witnessBlobs "root"
      (lateDeltas (witnessSrc1 :: [witnessSrc2])
        (planLogIDs witnessPlan)) = true ∧
    (CompleteCompactionMutation witnessCompactionMeta witnessBlobs "root"
      true 999 witnessPlan witnessResult).err = none :=
  ⟨by decide, by decide, by decide,
   (ccm_late_delta_carryover witnessCompactionMeta witnessBlobs "root" 999
      witnessPlan witnessResult witnessSrc1 [witnessSrc2] witnessCompactTo
      [] (by decide) (by decide) (by decide)).1⟩

/-! Claim C2: the compaction target record. -/

/-- C2: a successful completion installs a target with Level L1, the plan's
channel, collection/partition/maxRowNum from the first source, the source
ids as compactionFrom, createdByCompaction, the plan start time as
lastExpireTime, the timestamp-minima of the sources' positions, the
result's row count; Flushed when that count is positive, and on a zero
count Dropped with no new-segment contribution in the metric mutation. -/
theorem ccm_target_record (m : Meta) (blobs : BlobStore) (root : String)
    (now : Nat) (plan : CompactionPlan) (result : CompactionPlanResult)
    (first : SegmentRecord) (stail : List SegmentRecord)
    (cts : CompactionSegment) (crest : List CompactionSegment)
    (hsrc : planSourcesSpec m.segments plan.segmentBinlogs =
      some (first :: stail))
    (hres : result.segments = cts :: crest)
    (hreads : readsOk blobs root
      (lateDeltas (first :: stail) (planLogIDs plan)) = true) :
    ∃ t, (CompleteCompactionMutation m blobs root true now plan
        result).compactTo = some t ∧
      t.level = SegmentLevel.l1 ∧
      t.insertChannel = plan.channel ∧
      t.collectionID = first.collectionID ∧
      t.partitionID = first.partitionID ∧
      t.compactionFrom = plan.segmentBinlogs.map (fun sb => sb.segmentID) ∧
      t.createdByCompaction = true ∧
      t.lastExpireTime = plan.startTime ∧
      t.maxRowNum = first.maxRowNum ∧
      t.numOfRows = cts.numOfRows ∧
      isMinPositionOf t.startPosition
        ((first :: stail).map fun s => s.startPosition) ∧
      isMinPositionOf t.dmlPosition
        ((first :: stail).map fun s => s.dmlPosition) ∧
      (cts.numOfRows > 0 → t.state = SegmentState.flushed) ∧
      (cts.numOfRows = 0 → t.state = SegmentState.dropped ∧
        (CompleteCompactionMutation m blobs root true now plan
          result).mutation = some (dropsMutation (first :: stail))) := by
  obtain ⟨chunk, hprep⟩ := ccmPrepare_spec m blobs root now plan result first
    stail cts crest hsrc hres hreads
  have hmain :
      (CompleteCompactionMutation m blobs root true now plan
          result).compactTo =
        some (if cts.numOfRows > 0 then ccmTarget plan cts first stail
          else { ccmTarget plan cts first stail with
                 state := SegmentState.dropped }) ∧
      (CompleteCompactionMutation m blobs root true now plan
          result).mutation =
        some (if cts.numOfRows > 0 then
            (dropsMutation (first :: stail)).addNewSeg SegmentState.flushed
              SegmentLevel.l1 cts.numOfRows
          else dropsMutation (first :: stail)) := by
    unfold CompleteCompactionMutation
    rw [hprep]
    by_cases hpos : cts.numOfRows > 0 <;> simp [hpos]
  refine ⟨_, hmain.1, ?_, ?_, ?_, ?_, ?_, ?_, ?_, ?_, ?_, ?_, ?_, ?_, ?_⟩ <;>
    by_cases hpos : cts.numOfRows > 0 <;>
      simp [hpos, ccmTarget, getMinPosition_isMin]
  all_goals
    intro hzero
    first
      | (rw [hzero] at hpos; exact absurd hpos (by decide))
      | (rw [hmain.2, hzero]; simp)

/-- Witness for C2 on the two-source scenario. -/
theorem ccm_target_record_witness :
    planSourcesSpec witnessCompactionMeta.segments
        witnessPlan.segmentBinlogs = some (witnessSrc1 :: [witnessSrc2]) ∧
    ∃ t, (CompleteCompactionMutation witnessCompactionMeta witnessBlobs
        "root" true 999 witnessPlan witnessResult).compactTo = some t ∧
      t.level = SegmentLevel.l1 ∧ t.insertChannel = witnessPlan.channel := by
  refine ⟨by decide, ?_⟩
  obtain ⟨t, ht, hlevel, hchannel, _⟩ := ccm_target_record
    witnessCompactionMeta witnessBlobs "root" 999 witnessPlan witnessResult
    witnessSrc1 [witnessSrc2] witnessCompactTo [] (by decide) (by decide)
    (by decide)
  exact ⟨t, ht, hlevel, hchannel⟩

end Datacoord
